import Mathlib

/-!
Shallow embedding of the request/response engine of the `tusk` repository
(`src/tusk/src/{server,routes,reqres,json,urlencoded}.rs`), together with
theorems settling the frozen claims about routing, path normalization, the
JSON codec, body classification, error envelopes and the response write loop.

Rust `String` values are modelled as `String` (for route paths, header data)
or as `List Char` (for the character-scanner JSON parser and the path
normalizers, which walk characters one by one exactly like the source).
Byte vectors (`Vec<u8>`) are modelled as `List Nat` with every element the
value of one byte.  Rust functions that can `panic!` or `.unwrap()` are
modelled as `Option`-returning functions where `none` is the panic.
-/

namespace Tusk

/-! ## HTTP methods (`reqres.rs`, `HttpMethod`; `server.rs` calls the same enum `RequestType`) -/

inductive HttpMethod where
  | get
  | post
  | put
  | patch
  | delete
  | any
  | options
deriving DecidableEq, Repr

/-- Rust `HttpMethod::is_any` (reqres.rs line 520). -/
def HttpMethod.is_any : HttpMethod → Bool
  | .any => true
  | _ => false

/-! ## Routes and path normalization

`Route::new` (server.rs lines 286-301, identically routes.rs lines 15-35)
normalizes the registered path: prepend `'/'` when missing, then strip one
trailing `'/'` byte when present.  The trailing strip is a byte slice
`s_path[0..len-1]`; since it only happens when the last character is the
one-byte character `'/'`, it equals dropping the last character. -/

/-- The path normalization performed by `Route::new`. -/
def normalizePath (l : List Char) : List Char :=
  let s := if l.head? = some '/' then l else '/' :: l
  if s.getLast? = some '/' then s.dropLast else s

/-- The path normalization performed at request framing,
`Server::create_request_object` (server.rs lines 199-204): only a single
trailing `'/'` is stripped, nothing is prepended. -/
def frameNormalizePath (l : List Char) : List Char :=
  if l.getLast? = some '/' then l.dropLast else l

/-- A registered route.  The handler function itself plays no role in any
claim about lookup, so it is represented by an opaque identifier. -/
structure Route where
  path : String
  request_type : HttpMethod
  handler : Nat
deriving DecidableEq, Repr

/-- Embeds `Route::new` at the `String` level: normalize the path, keep the rest. -/
def Route.new (path : String) (request_type : HttpMethod) (handler : Nat) : Route :=
  { path := ⟨normalizePath path.data⟩, request_type := request_type, handler := handler }

/-! ## Route storage (`server.rs` lines 310-371; `routes.rs` lines 63-134) -/

structure RouteStorage where
  routes_get : List Route
  routes_post : List Route
  routes_put : List Route
  routes_patch : List Route
  routes_delete : List Route
  routes_any : List Route
deriving DecidableEq, Repr

/-- The empty storage (`RouteStorage::new`). -/
def RouteStorage.empty : RouteStorage :=
  ⟨[], [], [], [], [], []⟩

/-- The bucket consulted for a method, as selected by the `match` at the top
of both `RouteStorage::handler` and `RouteStorage::add`: the five concrete
methods get their own vector, everything else (`Any`, `Options`) falls into
`routes_any`. -/
def RouteStorage.bucket (s : RouteStorage) : HttpMethod → List Route
  | .get => s.routes_get
  | .post => s.routes_post
  | .put => s.routes_put
  | .patch => s.routes_patch
  | .delete => s.routes_delete
  | _ => s.routes_any

/-- Rust `RouteStorage::add`: push the route onto the bucket of its method. -/
def RouteStorage.add (s : RouteStorage) (r : Route) : RouteStorage :=
  match r.request_type with
  | .get => { s with routes_get := s.routes_get ++ [r] }
  | .post => { s with routes_post := s.routes_post ++ [r] }
  | .put => { s with routes_put := s.routes_put ++ [r] }
  | .patch => { s with routes_patch := s.routes_patch ++ [r] }
  | .delete => { s with routes_delete := s.routes_delete ++ [r] }
  | _ => { s with routes_any := s.routes_any ++ [r] }

/-- Rust's `sort_by(|a, b| a.path.cmp(&b.path))` is a stable sort by path.
A stable sort is extensionally unique, so it is modelled by stable insertion
sort, for which Mathlib provides sortedness and permutation lemmas. -/
def sortRoutes (l : List Route) : List Route :=
  List.insertionSort (fun a b => a.path.data ≤ b.path.data) l

/-- Embeds `RouteStorage::prep` as written in server.rs lines 364-371 (the
`RouteStorage` actually compiled into the crate: `lib.rs` has no
`mod routes;`).  Note that `routes_patch` is NOT sorted there. -/
def RouteStorage.prep_server (s : RouteStorage) : RouteStorage :=
  { s with
    routes_get := sortRoutes s.routes_get
    routes_post := sortRoutes s.routes_post
    routes_put := sortRoutes s.routes_put
    routes_delete := sortRoutes s.routes_delete
    routes_any := sortRoutes s.routes_any }

/-- Embeds `RouteStorage::prep` as written in routes.rs lines 127-134 (the other
revision of the same type, not reachable from `lib.rs`): all six buckets
are sorted, including `routes_patch`. -/
def RouteStorage.prep_routes (s : RouteStorage) : RouteStorage :=
  { s with
    routes_get := sortRoutes s.routes_get
    routes_post := sortRoutes s.routes_post
    routes_put := sortRoutes s.routes_put
    routes_patch := sortRoutes s.routes_patch
    routes_delete := sortRoutes s.routes_delete
    routes_any := sortRoutes s.routes_any }

/-! ## Binary search (`slice::binary_search_by`)

Rust's `binary_search_by` keeps `left`/`right` bounds, probes
`mid = left + (right - left) / 2`, moves `left` past `mid` on `Less`,
moves `right` to `mid` on `Greater` and returns `Ok(mid)` on `Equal`.
The interval shrinks strictly at every iteration, so running the loop with
`length + 1` iterations of fuel computes the same result as the unbounded
loop; the fuel keeps the definition structurally recursive and hence
evaluable by the kernel. -/

/-- Rust `String::cmp`: the total lexicographic order on strings.  Rust
compares the UTF-8 bytes; UTF-8 preserves code-point order, so this is the
lexicographic order on the strings' character lists (`String.data`), which
is also what Lean's `<` on `String` denotes. -/
def strCmp (a b : String) : Ordering :=
  if a.data < b.data then .lt else if a = b then .eq else .gt

/-- A placeholder route used to express list indexing; every access is
guarded by an index bound so the default is never produced. -/
def dfltRoute : Route := ⟨"", .any, 0⟩

/-- One run of the `binary_search_by` loop over `l[lo..hi)`. -/
def bsAux (l : List Route) (p : String) : Nat → Nat → Nat → Option Nat
  | 0, _, _ => Option.none
  | fuel + 1, lo, hi =>
    if lo < hi then
      let mid := lo + (hi - lo) / 2
      match strCmp (l.getD mid dfltRoute).path p with
      | .lt => bsAux l p fuel (mid + 1) hi
      | .eq => some mid
      | .gt => bsAux l p fuel lo mid
    else Option.none

/-- Embeds `l.binary_search_by(|a| a.path.cmp(path))`, returning the found index. -/
def binSearchPath (l : List Route) (p : String) : Option Nat :=
  bsAux l p (l.length + 1) 0 l.length

/-- Rust `RouteStorage::handler` (server.rs lines 331-351, identically routes.rs
lines 89-109): search the bucket for the request's method; on a miss, if the
method is not `Any`, search the wildcard bucket; a miss in both is `None`. -/
def RouteStorage.handler (s : RouteStorage) (request_type : HttpMethod) (path : String) :
    Option Route :=
  let handler_cat := s.bucket request_type
  match binSearchPath handler_cat path with
  | some i => some (handler_cat.getD i dfltRoute)
  | Option.none =>
    if !request_type.is_any then
      match binSearchPath s.routes_any path with
      | some i => some (s.routes_any.getD i dfltRoute)
      | Option.none => Option.none
    else Option.none

/-- A bucket is sorted by path (what `prep` establishes). -/
def SortedBucket (l : List Route) : Prop :=
  l.Pairwise (fun a b => a.path.data ≤ b.path.data)

/-- A bucket holds pairwise distinct paths. -/
def DistinctPaths (l : List Route) : Prop :=
  (l.map Route.path).Nodup

instance (l : List Route) : Decidable (SortedBucket l) := by
  unfold SortedBucket; infer_instance

instance (l : List Route) : Decidable (DistinctPaths l) := by
  unfold DistinctPaths; infer_instance

/-- A prepared route table: every bucket sorted with distinct paths. -/
def Prepared (s : RouteStorage) : Prop :=
  (SortedBucket s.routes_get ∧ DistinctPaths s.routes_get) ∧
  (SortedBucket s.routes_post ∧ DistinctPaths s.routes_post) ∧
  (SortedBucket s.routes_put ∧ DistinctPaths s.routes_put) ∧
  (SortedBucket s.routes_patch ∧ DistinctPaths s.routes_patch) ∧
  (SortedBucket s.routes_delete ∧ DistinctPaths s.routes_delete) ∧
  (SortedBucket s.routes_any ∧ DistinctPaths s.routes_any)

instance (s : RouteStorage) : Decidable (Prepared s) := by
  unfold Prepared; infer_instance

/-! ## Status codes and responses (`reqres.rs`) -/

/-- Rust `ResponseStatusCode` (reqres.rs lines 254-296). -/
inductive ResponseStatusCode where
  | ok
  | created
  | accepted
  | nonAuthoritativeInformation
  | noContent
  | resetContent
  | partialContent
  | multipleChoices
  | movedPermanently
  | found
  | seeOther
  | notModified
  | temporaryRedirect
  | permanentRedirect
  | badRequest
  | unauthorized
  | paymentRequired
  | forbidden
  | notFound
  | methodNotAllowed
  | notAcceptable
  | requestTimeout
  | conflict
  | gone
  | lengthRequired
  | preconditionFailed
  | payloadTooLarge
  | uriTooLong
  | unsupportedMediaType
  | rangeNotSatisfiable
  | expectationFailed
  | imATeapot
  | tooEarly
  | preconditionRequired
  | tooManyRequests
  | internalServerError
  | notImplemented
  | badGateway
  | serviceUnavailable
  | gatewayTimeout
  | httpVersionNotSupported
deriving DecidableEq, Repr

/-- Rust `ResponseStatusCode::code` (reqres.rs lines 298-342).  The Rust
return type is `i32`; every value is positive, so `Nat` models it exactly. -/
def ResponseStatusCode.code : ResponseStatusCode → Nat
  | .ok => 200
  | .created => 201
  | .accepted => 202
  | .nonAuthoritativeInformation => 203
  | .noContent => 204
  | .resetContent => 205
  | .partialContent => 206
  | .multipleChoices => 300
  | .movedPermanently => 301
  | .found => 302
  | .seeOther => 303
  | .notModified => 304
  | .temporaryRedirect => 307
  | .permanentRedirect => 308
  | .badRequest => 400
  | .unauthorized => 401
  | .paymentRequired => 402
  | .forbidden => 403
  | .notFound => 404
  | .methodNotAllowed => 405
  | .notAcceptable => 406
  | .requestTimeout => 408
  | .conflict => 409
  | .gone => 410
  | .lengthRequired => 411
  | .preconditionFailed => 412
  | .payloadTooLarge => 413
  | .uriTooLong => 414
  | .unsupportedMediaType => 415
  | .rangeNotSatisfiable => 416
  | .expectationFailed => 417
  | .imATeapot => 418
  | .tooEarly => 425
  | .preconditionRequired => 428
  | .tooManyRequests => 429
  | .internalServerError => 500
  | .notImplemented => 501
  | .badGateway => 502
  | .serviceUnavailable => 503
  | .gatewayTimeout => 504
  | .httpVersionNotSupported => 505

/-- An outgoing response (reqres.rs lines 29-33).  `data` is a `Vec<u8>`
holding UTF-8 text in every claim considered here, so it is modelled as a
`String`; `headers` is a `BTreeMap<String, String>`, modelled as an
assoc list kept sorted and duplicate-free by `btreeInsert`. -/
structure Response where
  data : String
  status : ResponseStatusCode
  headers : List (String × String)
deriving DecidableEq, Repr

/-- Insertion into a `BTreeMap<String, String>` modelled on a key-sorted
assoc list: replace an existing binding, otherwise insert in order. -/
def btreeInsert (k v : String) : List (String × String) → List (String × String)
  | [] => [(k, v)]
  | (k', v') :: t =>
    if k < k' then (k, v) :: (k', v') :: t
    else if k = k' then (k, v) :: t
    else (k', v') :: btreeInsert k v t

/-- Rust `Response::header` (reqres.rs lines 137-140). -/
def Response.header (r : Response) (k v : String) : Response :=
  { r with headers := btreeInsert k v r.headers }

/-- Rust `Response::status` (reqres.rs lines 131-134); named `withStatus`
here because `status` is the field's name. -/
def Response.withStatus (r : Response) (status : ResponseStatusCode) : Response :=
  { r with status := status }

/-- Rust `Response::data` (reqres.rs lines 70-89), named `mkData` here
because `data` is the field's name.  The `Date` header value is computed
from the wall clock in Rust; the current formatted date string is taken as
the parameter `now`. -/
def Response.mkData (now : String) (data : String) : Response :=
  ((((({ data := data, status := .ok, headers := [] } : Response).header
    "Content-Type" "text/html").header
    "Content-Length" (toString data.length)).header
    "Date" now).header
    "Connection" "close")

/-- Rust `Response::string` (reqres.rs lines 93-95), named `mkString` here. -/
def Response.mkString (now : String) (s : String) : Response :=
  (Response.mkData now s).header "Content-Type" "text/plain"

/-- Rust `Response::apply_cors` (reqres.rs lines 143-147). -/
def Response.apply_cors (r : Response) (origin headers : String) : Response :=
  ((r.header "Access-Control-Allow-Origin" origin).header
    "Access-Control-Allow-Headers" headers).header
    "Access-Control-Allow-Methods" "POST, PATCH, GET, OPTIONS, DELETE, PUT"

/-- Rust `Server::default_error` (server.rs lines 250-252): the built-in
handler dispatched when no route matches. -/
def Server.default_error (now : String) : Response :=
  (Response.mkString now "404 not found").withStatus .notFound

/-- Rust `RouteError` (reqres.rs lines 174-178). -/
structure RouteError where
  message : String
  status_code : ResponseStatusCode
  override_output : Bool
deriving DecidableEq, Repr

/-- Rust `RouteError::not_found` (reqres.rs lines 199-205). -/
def RouteError.not_found (msg : String) : RouteError :=
  { message := msg, status_code := .notFound, override_output := false }

/-- Rust `RouteError::to_response` (reqres.rs lines 236-248), transcribed
from the sequence of `+=` on `o`.  Note the source never consults
`self.override_output`. -/
def RouteError.to_response (now : String) (e : RouteError) : Response :=
  let o := "\x7b\n" ++ "\t\"code\":\"" ++ toString e.status_code.code ++ "\",\n"
    ++ "\t\"message\":\"" ++ e.message ++ "\"\n\x7d"
  ((Response.mkData now o).withStatus e.status_code).header
    "Content-Type" "Content-Type: application/json; charset=utf-8"

/-! ## The response write loop (`Server::start`, server.rs lines 149-161)

The loop keeps a slice `write_bytes`, calls `stream.write(write_bytes)`,
breaks on `Err`, breaks on `Ok(n)` with `n` equal to the slice length, and
otherwise continues with `write_bytes[n..]`.  The socket is modelled by an
oracle: a list of per-call outcomes, `some n` for `Ok(n)` and `none` for
`Err`.  `runWriteAttempts` records the slice passed to each `write` call,
`runWriteAck` the bytes the socket acknowledged, and `runWriteEnd` how the
loop ended (`pending` means the oracle ran out before the loop broke). -/

inductive WriteEnd where
  | completed
  | ioerror
  | pending
deriving DecidableEq, Repr

/-- The slices handed to successive `write` calls by the retry loop. -/
def runWriteAttempts (buf : List Nat) : List (Option Nat) → List (List Nat)
  | [] => []
  | Option.none :: _ => [buf]
  | some n :: os =>
    if n = buf.length then [buf] else buf :: runWriteAttempts (buf.drop n) os

/-- The bytes acknowledged as written across the retry loop. -/
def runWriteAck (buf : List Nat) : List (Option Nat) → List Nat
  | [] => []
  | Option.none :: _ => []
  | some n :: os =>
    if n = buf.length then buf else buf.take n ++ runWriteAck (buf.drop n) os

/-- How the retry loop ended for the given oracle. -/
def runWriteEnd (buf : List Nat) : List (Option Nat) → WriteEnd
  | [] => .pending
  | Option.none :: _ => .ioerror
  | some n :: os =>
    if n = buf.length then .completed else runWriteEnd (buf.drop n) os

/-- Sum of the byte counts acknowledged by the first `k` write outcomes. -/
def ackSum : List (Option Nat) → Nat → Nat
  | _, 0 => 0
  | [], _ + 1 => 0
  | Option.none :: _, _ + 1 => 0
  | some n :: os, k + 1 => n + ackSum os k

/-- The OPTIONS-preflight write path (server.rs line 109):
`_ = req_stream.write(&bytes).await;` — a single write whose result is
discarded; the slices handed to `write` never depend on the outcome. -/
def optionsWriteAttempts (buf : List Nat) (_outcome : Option Nat) : List (List Nat) :=
  [buf]

/-- The bytes acknowledged on the OPTIONS-preflight write path. -/
def optionsWriteAck (buf : List Nat) (outcome : Option Nat) : List Nat :=
  match outcome with
  | some n => buf.take n
  | Option.none => []

/-! ## JSON codec (`json.rs`)

The parser walks a `chars()` iterator, modelled as a `List Char` that each
helper consumes from the front.  Each helper returns the value it read
together with the unconsumed rest of the iterator.  Rust `panic!` and
`unwrap()` surface as `Option.none` of the whole parse.  Strings are
accumulated by `acc ++ [c]`, mirroring `String::push`, and `String::pop`
is `List.dropLast`. -/

/-- Rust `JsonType` (json.rs lines 410-416); constructor names are
lower-cased (`String`, `Number`, ... collide with Lean core names). -/
inductive JsonType where
  | str
  | number
  | boolean
  | object
  | array
deriving DecidableEq, Repr

/-- Rust `JsonType::is_primitive` (json.rs lines 419-421). -/
def JsonType.is_primitive (t : JsonType) : Bool :=
  t = .number || t = .boolean

/-- Rust `JsonType::type_for_delimiter` (json.rs lines 422-436); the final
branch is `panic!`, hence `none`.  Note `'-'`, `'n'`, `'"'`-less values
etc. all panic. -/
def typeForDelimiter (dlm : Char) : Option JsonType :=
  if dlm.isDigit then some .number
  else if dlm = '"' then some .str
  else if dlm = 'f' || dlm = 't' then some .boolean
  else if dlm = '[' then some .array
  else if dlm = '\x7b' then some .object
  else Option.none

/-- Rust `JsonChild` (json.rs lines 362-366). -/
structure JsonChild where
  content_type : JsonType
  contents : List Char
deriving DecidableEq, Repr

/-- The key-reading loop (json.rs lines 24-36): copy characters until the
next `'"'`; when it is found, consume one further character ("skip the
colon"); when the iterator is exhausted first, stop without skipping. -/
def readKey (acc : List Char) : List Char → (List Char × List Char)
  | [] => (acc, [])
  | c :: cs => if c ≠ '"' then readKey (acc ++ [c]) cs else (acc, cs.drop 1)

/-- The whitespace-skipping loop before a value (json.rs lines 39-49):
return the first character that is not `' '`; `none` when the iterator is
exhausted first (leaving `value_start = ' '`, which the caller feeds to
`type_for_delimiter`, a panic). -/
def skipSpaces : List Char → (Option Char × List Char)
  | [] => (Option.none, [])
  | c :: cs => if c ≠ ' ' then (some c, cs) else skipSpaces cs

/-- The string-value loop (json.rs lines 53-71): copy characters until an
unescaped `'"'`; a `'"'` directly after a `'\'` pops the `'\'` and pushes
the `'"'` (so `\"` is unescaped during parsing; `\\` is copied verbatim).
`last` is the source's `last_value`, initialised to `'0'` by the caller. -/
def readStr (acc : List Char) (last : Char) : List Char → (List Char × List Char)
  | [] => (acc, [])
  | c :: cs =>
    if c ≠ '"' then readStr (acc ++ [c]) c cs
    else if last = '\\' then readStr (acc.dropLast ++ [c]) c cs
    else (acc, cs)

/-- The primitive-value loop (json.rs lines 72-87): the caller seeds the
accumulator with `value_start`; copy characters until a `','` (which is
consumed) or exhaustion. -/
def readPrim (acc : List Char) : List Char → (List Char × List Char)
  | [] => (acc, [])
  | c :: cs => if c ≠ ',' then readPrim (acc ++ [c]) cs else (acc, cs)

/-- The object-value loop (json.rs lines 88-108): the caller seeds the
accumulator with `'{'`; push every character, counting `'{'`/`'}'` depth
(with no inside-string tracking); when depth returns to zero the closing
`'}'` that was just pushed is popped again and reading stops. -/
def readObjVal (acc : List Char) (depth : Nat) : List Char → (List Char × List Char)
  | [] => (acc, [])
  | c :: cs =>
    if c = '\x7b' then readObjVal (acc ++ [c]) (depth + 1) cs
    else if c = '\x7d' then
      if depth = 1 then (acc, cs) else readObjVal (acc ++ [c]) (depth - 1) cs
    else readObjVal (acc ++ [c]) depth cs

/-- The array-value loop (json.rs lines 109-127): like `readObjVal` for
`'['`/`']'`, except the closing `']'` is kept in the contents. -/
def readArrVal (acc : List Char) (depth : Nat) : List Char → (List Char × List Char)
  | [] => (acc, [])
  | c :: cs =>
    if c = '[' then readArrVal (acc ++ [c]) (depth + 1) cs
    else if c = ']' then
      if depth = 1 then (acc ++ [c], cs) else readArrVal (acc ++ [c]) (depth - 1) cs
    else readArrVal (acc ++ [c]) depth cs

/-- Dispatch on the value's `content_type` to the matching reading loop
(json.rs lines 53-128), returning the contents and the unconsumed rest. -/
def readValue (ty : JsonType) (value_start : Char) (cs : List Char) :
    (List Char × List Char) :=
  match ty with
  | .str => readStr [] '0' cs
  | .number => readPrim [value_start] cs
  | .boolean => readPrim [value_start] cs
  | .object => readObjVal ['\x7b'] 1 cs
  | .array => readArrVal ['['] 1 cs

/-- The outer loop of `JsonObject::from_string` (json.rs lines 20-138):
scan for a `'"'`, read a key, skip the colon, find the value's first
character, classify it, read the value, store the entry and continue.
Every iteration consumes at least one character, so `length + 1` fuel is
enough; `none` models a `panic!` inside the loop. -/
def objLoop : Nat → List Char → Option (List (List Char × JsonChild))
  | 0, _ => Option.none
  | _ + 1, [] => some []
  | fuel + 1, c :: rest =>
    if c = '"' then
      match readKey [] rest with
      | (key, rest1) =>
        match skipSpaces rest1 with
        | (Option.none, _) => Option.none
        | (some value_start, rest2) =>
          match typeForDelimiter value_start with
          | Option.none => Option.none
          | some ty =>
            match readValue ty value_start rest2 with
            | (contents, rest3) =>
              (objLoop fuel rest3).map
                (fun es => (key, ⟨ty, contents⟩) :: es)
    else objLoop fuel rest

/-- Rust `JsonObject::from_string` (json.rs lines 11-140).  The source
first takes `json[0..chars().count() - 1]`, i.e. drops the final character
(an index-underflow panic on the empty string); the leading `'{'` is left
in place and skipped by the scan loop.  The `HashMap` is modelled as the
assoc list of insertions in scan order; `insert` overwrites, so lookups
must take the last binding (`objGet`). -/
def jsonObjectFromString (s : List Char) : Option (List (List Char × JsonChild)) :=
  match s with
  | [] => Option.none
  | _ :: _ => objLoop (s.length + 1) s.dropLast

/-- Lookup in the parsed object: `HashMap::insert` overwrites, so the last
binding in scan order wins. -/
def objGet (es : List (List Char × JsonChild)) (key : List Char) : Option JsonChild :=
  es.reverse.lookup key

/-- Rust `JsonObject::string` (json.rs lines 142-145): clone the raw
contents of the child, whatever its type. -/
def objString (es : List (List Char × JsonChild)) (key : List Char) : Option (List Char) :=
  (objGet es key).map JsonChild.contents

/-- The comma-skipping loop after a non-primitive array element
(json.rs lines 332-342): drop characters up to and including the next
`','`, or everything when no comma remains. -/
def skipToComma : List Char → List Char
  | [] => []
  | c :: cs => if c = ',' then cs else skipToComma cs

/-- The outer loop of `JsonArray::from_string` (json.rs lines 237-348):
while characters remain, find the value's first character, classify it,
read it, then (for non-primitives) skip to the next comma.  Fuel as in
`objLoop`. -/
def arrLoop : Nat → List Char → Option (List JsonChild)
  | 0, _ => Option.none
  | _ + 1, [] => some []
  | fuel + 1, c :: rest =>
    match skipSpaces (c :: rest) with
    | (Option.none, _) => Option.none
    | (some value_start, rest2) =>
      match typeForDelimiter value_start with
      | Option.none => Option.none
      | some ty =>
        match readValue ty value_start rest2 with
        | (contents, rest3) =>
          let rest4 := if ty.is_primitive then rest3 else skipToComma rest3
          (arrLoop fuel rest4).map (fun vs => (⟨ty, contents⟩ : JsonChild) :: vs)

/-- Rust `JsonArray::from_string` (json.rs lines 230-351).  The source
takes `json[1..chars().count() - 1]`, i.e. drops the first and the last
character (an invalid-range panic when fewer than two characters). -/
def jsonArrayFromString (s : List Char) : Option (List JsonChild) :=
  match s with
  | [] => Option.none
  | [_] => Option.none
  | _ :: rest => arrLoop (s.length + 1) rest.dropLast

/-- Rust `impl ToJson for String` (json.rs lines 443-450): wrap the string
in double quotes.  No character of the payload is escaped or otherwise
rewritten. -/
def stringToJson (s : List Char) : List Char :=
  '"' :: (s ++ ['"'])

/-- Rust `impl<K, V> ToJson for HashMap<K, V>` (json.rs lines 523-538) at
`V = String`, with the map's iteration order modelled by the assoc-list
order: emit `"key":<value json>,` per entry, strip the final character
(the trailing comma — or the `'{'` itself when the map is empty), close
with `'}'`. -/
def hashMapStringToJson (entries : List (List Char × List Char)) : List Char :=
  let body := '\x7b' :: entries.flatMap
    (fun kv => '"' :: (kv.1 ++ ['"', ':'] ++ stringToJson kv.2 ++ [',']))
  body.dropLast ++ ['\x7d']

/-- Rust `impl<T> ToJson for Vec<T>` (json.rs lines 500-514) at
`T = String`: emit elements comma-separated, stripping the one trailing
comma only when the vector is nonempty. -/
def vecStringToJson (elems : List (List Char)) : List Char :=
  let body := '[' :: elems.flatMap (fun e => stringToJson e ++ [','])
  (if elems.isEmpty then body else body.dropLast) ++ [']']

/-! ## Form decoding (`urlencoded.rs`) -/

/-- Rust `str::split(sep)` on characters: always returns at least one
piece; adjacent separators produce empty pieces. -/
def splitOnChar (sep : Char) : List Char → List (List Char)
  | [] => [[]]
  | c :: cs =>
    let r := splitOnChar sep cs
    if c = sep then [] :: r
    else
      match r with
      | h :: t => (c :: h) :: t
      | [] => [[c]]

/-- Does `pat` occur at the front of `l`? -/
def matchesAt (pat l : List Char) : Bool :=
  l.take pat.length == pat

/-- Rust `str::replace(pat, repl)`: replace all non-overlapping occurrences
left to right.  Fueled for structural recursion; every step consumes at
least one character, so `length + 1` fuel always suffices (patterns used
here are nonempty). -/
def replaceAllF (pat repl : List Char) : Nat → List Char → List Char
  | 0, l => l
  | _ + 1, [] => []
  | fuel + 1, c :: cs =>
    if matchesAt pat (c :: cs) then
      repl ++ replaceAllF pat repl fuel ((c :: cs).drop pat.length)
    else c :: replaceAllF pat repl fuel cs

/-- Entry point for `str::replace` on char lists. -/
def replaceAll (pat repl l : List Char) : List Char :=
  replaceAllF pat repl (l.length + 1) l

/-- Rust `UrlEncodedParse::decode_url` (urlencoded.rs lines 136-153): the
chain of `replace` calls, applied in source order. -/
def decodeUrl (s : List Char) : List Char :=
  replaceAll "%5D".toList "]".toList (
  replaceAll "%5B".toList "[".toList (
  replaceAll "%25".toList "%".toList (
  replaceAll "%2C".toList ",".toList (
  replaceAll "%2B".toList "+".toList (
  replaceAll "%2A".toList "*".toList (
  replaceAll "%29".toList ")".toList (
  replaceAll "%28".toList "(".toList (
  replaceAll "%27".toList "'".toList (
  replaceAll "%26".toList "&".toList (
  replaceAll "%24".toList "$".toList (
  replaceAll "%23".toList "#".toList (
  replaceAll "%22".toList "\"".toList (
  replaceAll "%21".toList "!".toList (
  replaceAll "%20".toList " ".toList (
  replaceAll "+".toList " ".toList s)))))))))))))))

/-- Rust `UrlEncoded::from_string` (urlencoded.rs lines 10-23): split on
`'&'`, split each piece on `'='`, keep pieces that have a value, decode
the key (values are decoded later, in `get`).  The `HashMap` is modelled
as the assoc list in split order. -/
def urlEncodedFromString (d : List Char) : List (List Char × List Char) :=
  (splitOnChar '&' d).filterMap (fun x =>
    let x_spl := splitOnChar '=' x
    match x_spl.head?, x_spl.get? 1 with
    | some k, some v => some (decodeUrl k, v)
    | _, _ => Option.none)

/-! ## UTF-8 and body classification (`reqres.rs` lines 394-430)

`String::from_utf8` accepts exactly the well-formed UTF-8 encodings
(shortest form, no surrogates, at most U+10FFFF) and panics through
`unwrap()` otherwise.  `utf8Decode?` is that validator-decoder, written
over bytes-as-`Nat`; `utf8EncodeChar` is the inverse encoder used to build
concrete byte bodies. -/

/-- Decode a well-formed UTF-8 byte list; `none` on any malformed input. -/
def utf8Decode? : List Nat → Option (List Char)
  | [] => some []
  | b1 :: rest =>
    if b1 < 0x80 then
      (utf8Decode? rest).map (fun cs => Char.ofNat b1 :: cs)
    else if b1 < 0xC2 then Option.none
    else if b1 ≤ 0xDF then
      match rest with
      | b2 :: rest2 =>
        if 0x80 ≤ b2 ∧ b2 ≤ 0xBF then
          (utf8Decode? rest2).map
            (fun cs => Char.ofNat ((b1 - 0xC0) * 0x40 + (b2 - 0x80)) :: cs)
        else Option.none
      | [] => Option.none
    else if b1 ≤ 0xEF then
      match rest with
      | b2 :: b3 :: rest3 =>
        let lo2 := if b1 = 0xE0 then 0xA0 else 0x80
        let hi2 := if b1 = 0xED then 0x9F else 0xBF
        if lo2 ≤ b2 ∧ b2 ≤ hi2 ∧ 0x80 ≤ b3 ∧ b3 ≤ 0xBF then
          (utf8Decode? rest3).map
            (fun cs =>
              Char.ofNat ((b1 - 0xE0) * 0x1000 + (b2 - 0x80) * 0x40 + (b3 - 0x80)) :: cs)
        else Option.none
      | _ => Option.none
    else if b1 ≤ 0xF4 then
      match rest with
      | b2 :: b3 :: b4 :: rest4 =>
        let lo2 := if b1 = 0xF0 then 0x90 else 0x80
        let hi2 := if b1 = 0xF4 then 0x8F else 0xBF
        if lo2 ≤ b2 ∧ b2 ≤ hi2 ∧ 0x80 ≤ b3 ∧ b3 ≤ 0xBF ∧ 0x80 ≤ b4 ∧ b4 ≤ 0xBF then
          (utf8Decode? rest4).map
            (fun cs =>
              Char.ofNat ((b1 - 0xF0) * 0x40000 + (b2 - 0x80) * 0x1000
                + (b3 - 0x80) * 0x40 + (b4 - 0x80)) :: cs)
        else Option.none
      | _ => Option.none
    else Option.none

/-- Encode one character to UTF-8 bytes. -/
def utf8EncodeChar (c : Char) : List Nat :=
  let n := c.toNat
  if n < 0x80 then [n]
  else if n < 0x800 then [0xC0 + n / 0x40, 0x80 + n % 0x40]
  else if n < 0x10000 then
    [0xE0 + n / 0x1000, 0x80 + (n / 0x40) % 0x40, 0x80 + n % 0x40]
  else
    [0xF0 + n / 0x40000, 0x80 + (n / 0x1000) % 0x40, 0x80 + (n / 0x40) % 0x40,
      0x80 + n % 0x40]

/-- Encode a character list to UTF-8 bytes. -/
def utf8Encode (cs : List Char) : List Nat :=
  cs.flatMap utf8EncodeChar

/-- Rust `BodyContents` (reqres.rs lines 394-402), with the JSON variants
holding the parsed value exactly as in the source. -/
inductive BodyContents where
  | binary (data : List Nat)
  | jsonObject (o : List (List Char × JsonChild))
  | jsonArray (a : List JsonChild)
  | urlEncoded (m : List (List Char × List Char))
  | plainText (s : List Char)
  | none
deriving DecidableEq, Repr

/-- Rust `BodyContents::type_from_mime` (reqres.rs lines 411-430).  The
`match` arms in source order; `String::from_utf8(..).unwrap()` panics —
hence `Option.none` — on invalid UTF-8 for the JSON, plain-text and
form-encoded arms; all other mime types keep the raw bytes. -/
def typeFromMime (mime : String) (data : List Nat) : Option BodyContents :=
  if mime = "application/octet-stream" then some (.binary data)
  else if mime = "application/json" ∨ mime = "application/ld+json" then
    match utf8Decode? data with
    | Option.none => Option.none
    | some contents_string =>
      if contents_string.head? = some '[' then
        (jsonArrayFromString contents_string).map .jsonArray
      else
        (jsonObjectFromString contents_string).map .jsonObject
  else if mime = "text/plain" then
    (utf8Decode? data).map .plainText
  else if mime = "application/x-www-form-urlencoded" then
    (utf8Decode? data).map (fun s => .urlEncoded (urlEncodedFromString s))
  else some (.binary data)

/-! # Theorems -/

/-! ## Binary search toolkit -/

theorem strCmp_lt_iff (a b : String) : strCmp a b = .lt ↔ a.data < b.data := by
  unfold strCmp
  split_ifs with h1 h2
  · exact iff_of_true rfl h1
  · exact iff_of_false (by decide) h1
  · exact iff_of_false (by decide) h1

theorem strCmp_eq_iff (a b : String) : strCmp a b = .eq ↔ a = b := by
  unfold strCmp
  split_ifs with h1 h2
  · exact iff_of_false (by decide) (fun he => absurd h1 (by rw [he]; exact lt_irrefl _))
  · exact iff_of_true rfl h2
  · exact iff_of_false (by decide) h2

theorem strCmp_gt_iff (a b : String) : strCmp a b = .gt ↔ b.data < a.data := by
  unfold strCmp
  split_ifs with h1 h2
  · exact iff_of_false (by decide) (lt_asymm h1)
  · exact iff_of_false (by decide) (by rw [h2]; exact lt_irrefl _)
  · exact iff_of_true rfl
      (lt_of_le_of_ne (le_of_not_lt h1) (fun hba => h2 (String.ext hba.symm)))

theorem ne_of_data_lt {a b : String} (h : a.data < b.data) : a ≠ b :=
  fun he => absurd h (by rw [he]; exact lt_irrefl _)

theorem ne_of_data_gt {a b : String} (h : b.data < a.data) : a ≠ b :=
  fun he => absurd h (by rw [he]; exact lt_irrefl _)

theorem pathAt_lt {l : List Route} (hs : l.Pairwise (fun a b => a.path.data < b.path.data))
    {i j : Nat} (hij : i < j) (hj : j < l.length) :
    (l.getD i dfltRoute).path.data < (l.getD j dfltRoute).path.data := by
  have hi : i < l.length := lt_trans hij hj
  rw [List.getD_eq_getElem l _ hi, List.getD_eq_getElem l _ hj]
  exact List.pairwise_iff_getElem.mp hs i j hi hj hij

theorem bsAux_sound (l : List Route) (p : String)
    (hs : l.Pairwise (fun a b => a.path.data < b.path.data)) :
    ∀ fuel lo hi, hi ≤ l.length → hi - lo < fuel →
      ((∀ i, bsAux l p fuel lo hi = some i →
          lo ≤ i ∧ i < hi ∧ (l.getD i dfltRoute).path = p) ∧
        (bsAux l p fuel lo hi = Option.none →
          ∀ j, lo ≤ j → j < hi → (l.getD j dfltRoute).path ≠ p)) := by
  intro fuel
  induction fuel with
  | zero =>
    intro lo hi _ hfuel
    omega
  | succ fuel ih =>
    intro lo hi hhi hfuel
    by_cases hlh : lo < hi
    · have hmidlo : lo ≤ lo + (hi - lo) / 2 := Nat.le_add_right _ _
      have hmidhi : lo + (hi - lo) / 2 < hi := by omega
      have hunf : bsAux l p (fuel + 1) lo hi =
          (match strCmp (l.getD (lo + (hi - lo) / 2) dfltRoute).path p with
            | .lt => bsAux l p fuel (lo + (hi - lo) / 2 + 1) hi
            | .eq => some (lo + (hi - lo) / 2)
            | .gt => bsAux l p fuel lo (lo + (hi - lo) / 2)) := by
        simp [bsAux, hlh]
      cases hcmp : strCmp (l.getD (lo + (hi - lo) / 2) dfltRoute).path p with
      | lt =>
        rw [hcmp] at hunf
        have hrec := ih (lo + (hi - lo) / 2 + 1) hi hhi (by omega)
        constructor
        · intro i hsome
          rw [hunf] at hsome
          have h := hrec.1 i hsome
          exact ⟨by omega, h.2.1, h.2.2⟩
        · intro hnone j hjlo hjhi
          rw [hunf] at hnone
          by_cases hj : j ≤ lo + (hi - lo) / 2
          · have hmp : (l.getD (lo + (hi - lo) / 2) dfltRoute).path.data < p.data :=
              (strCmp_lt_iff _ _).mp hcmp
            rcases Nat.lt_or_ge j (lo + (hi - lo) / 2) with hj2 | hj2
            · exact ne_of_data_lt (lt_trans (pathAt_lt hs hj2 (lt_of_lt_of_le hmidhi hhi)) hmp)
            · have hjeq : j = lo + (hi - lo) / 2 := by omega
              rw [hjeq]
              exact ne_of_data_lt hmp
          · exact hrec.2 hnone j (by omega) hjhi
      | eq =>
        rw [hcmp] at hunf
        constructor
        · intro i hsome
          rw [hunf] at hsome
          injection hsome with hieq
          rw [← hieq]
          exact ⟨hmidlo, hmidhi, (strCmp_eq_iff _ _).mp hcmp⟩
        · intro hnone
          rw [hunf] at hnone
          cases hnone
      | gt =>
        rw [hcmp] at hunf
        have hrec := ih lo (lo + (hi - lo) / 2)
          (le_of_lt (lt_of_lt_of_le hmidhi hhi)) (by omega)
        constructor
        · intro i hsome
          rw [hunf] at hsome
          have h := hrec.1 i hsome
          exact ⟨h.1, by omega, h.2.2⟩
        · intro hnone j hjlo hjhi
          rw [hunf] at hnone
          have hpm : p.data < (l.getD (lo + (hi - lo) / 2) dfltRoute).path.data :=
            (strCmp_gt_iff _ _).mp hcmp
          by_cases hj : j < lo + (hi - lo) / 2
          · exact hrec.2 hnone j hjlo hj
          · rcases Nat.lt_or_ge (lo + (hi - lo) / 2) j with hj2 | hj2
            · exact ne_of_data_gt (lt_trans hpm (pathAt_lt hs hj2 (lt_of_lt_of_le hjhi hhi)))
            · have hjeq : j = lo + (hi - lo) / 2 := by omega
              rw [hjeq]
              exact ne_of_data_gt hpm
    · have hunf : bsAux l p (fuel + 1) lo hi = Option.none := by
        simp [bsAux, hlh]
      constructor
      · intro i hsome
        rw [hunf] at hsome
        cases hsome
      · intro _ j hjlo hjhi
        omega

theorem binSearchPath_spec (l : List Route) (p : String)
    (hs : l.Pairwise (fun a b => a.path.data < b.path.data)) :
    (∀ i, binSearchPath l p = some i →
      i < l.length ∧ (l.getD i dfltRoute).path = p) ∧
    (binSearchPath l p = Option.none → ∀ r ∈ l, r.path ≠ p) := by
  have h := bsAux_sound l p hs (l.length + 1) 0 l.length le_rfl (by omega)
  constructor
  · intro i hi
    have h2 := h.1 i hi
    exact ⟨h2.2.1, h2.2.2⟩
  · intro hnone r hr
    rcases List.mem_iff_getElem.mp hr with ⟨j, hj, hjr⟩
    have h2 := h.2 hnone j (Nat.zero_le _) hj
    rw [List.getD_eq_getElem l _ hj, hjr] at h2
    exact h2

theorem sorted_distinct_strict {l : List Route}
    (h1 : SortedBucket l) (h2 : DistinctPaths l) :
    l.Pairwise (fun a b => a.path.data < b.path.data) := by
  unfold DistinctPaths at h2
  rw [List.Nodup, List.pairwise_map] at h2
  exact (List.Pairwise.and h1 h2).imp
    (fun h => lt_of_le_of_ne h.1 (fun hd => h.2 (String.ext hd)))

theorem prepared_bucket {s : RouteStorage} (h : Prepared s) (m : HttpMethod) :
    SortedBucket (s.bucket m) ∧ DistinctPaths (s.bucket m) := by
  obtain ⟨hg, hpo, hpu, hpa, hd, ha⟩ := h
  cases m <;> exact (by assumption)

/-- C1: on a prepared route table whose buckets hold distinct paths, lookup
returns the route registered in the bucket of the request's method at
exactly the request's path when one exists; otherwise, when the method is
not the wildcard, the route registered in the wildcard bucket at that path
when one exists; otherwise no route — and dispatch then falls through to
the built-in `default_error` handler, whose response carries status 404. -/
theorem c1_route_lookup_correct (s : RouteStorage) (h : Prepared s)
    (m : HttpMethod) (p : String) :
    (∀ r, s.handler m p = some r →
      (r ∈ s.bucket m ∧ r.path = p) ∨
      ((∀ r' ∈ s.bucket m, r'.path ≠ p) ∧ m.is_any = false ∧
        r ∈ s.routes_any ∧ r.path = p)) ∧
    (s.handler m p = Option.none →
      (∀ r' ∈ s.bucket m, r'.path ≠ p) ∧
      (m.is_any = false → ∀ r' ∈ s.routes_any, r'.path ≠ p)) ∧
    (∀ now, (Server.default_error now).status = .notFound ∧
      ResponseStatusCode.notFound.code = 404) := by
  have hb := prepared_bucket h m
  have hany := prepared_bucket h .any
  have hsb := sorted_distinct_strict hb.1 hb.2
  have hsa : s.routes_any.Pairwise (fun a b => a.path.data < b.path.data) :=
    sorted_distinct_strict hany.1 hany.2
  have specb := binSearchPath_spec (s.bucket m) p hsb
  have speca := binSearchPath_spec s.routes_any p hsa
  refine ⟨?_, ?_, ?_⟩
  · intro r hr
    unfold RouteStorage.handler at hr
    cases hcat : binSearchPath (s.bucket m) p with
    | some i =>
      simp only [hcat] at hr
      injection hr with hri
      have hi := specb.1 i hcat
      left
      constructor
      · rw [← hri, List.getD_eq_getElem _ _ hi.1]
        exact List.getElem_mem hi.1
      · rw [← hri]
        exact hi.2
    | none =>
      cases hA : m.is_any with
      | true =>
        simp only [hcat, hA, Bool.not_true, Bool.false_eq_true, if_false] at hr
        cases hr
      | false =>
        simp only [hcat, hA, Bool.not_false, if_true] at hr
        cases hrany : binSearchPath s.routes_any p with
        | some j =>
          rw [hrany] at hr
          injection hr with hrj
          have hj := speca.1 j hrany
          right
          refine ⟨specb.2 hcat, rfl, ?_, ?_⟩
          · rw [← hrj, List.getD_eq_getElem _ _ hj.1]
            exact List.getElem_mem hj.1
          · rw [← hrj]
            exact hj.2
        | none =>
          rw [hrany] at hr
          cases hr
  · intro hr
    unfold RouteStorage.handler at hr
    cases hcat : binSearchPath (s.bucket m) p with
    | some i =>
      simp only [hcat] at hr
      cases hr
    | none =>
      refine ⟨specb.2 hcat, ?_⟩
      intro hA
      simp only [hcat, hA, Bool.not_false, if_true] at hr
      cases hrany : binSearchPath s.routes_any p with
      | some j =>
        rw [hrany] at hr
        cases hr
      | none =>
        exact speca.2 hrany
  · intro now
    exact ⟨rfl, rfl⟩

/-- Concrete prepared storage used to instantiate the lookup theorem. -/
def c1Storage : RouteStorage :=
  { RouteStorage.empty with
    routes_get := [⟨"/users", .get, 1⟩]
    routes_any := [⟨"/misc", .any, 2⟩] }

/-- Witness for C1: instantiates the lookup theorem on a concrete prepared
table at method GET and path "/users". -/
theorem c1_route_lookup_correct_witness :
    ((⟨"/users", .get, 1⟩ : Route) ∈ c1Storage.bucket .get ∧
      (⟨"/users", .get, 1⟩ : Route).path = "/users") ∨
    ((∀ r' ∈ c1Storage.bucket .get, r'.path ≠ "/users") ∧
      HttpMethod.get.is_any = false ∧
      (⟨"/users", .get, 1⟩ : Route) ∈ c1Storage.routes_any ∧
      (⟨"/users", .get, 1⟩ : Route).path = "/users") :=
  (c1_route_lookup_correct c1Storage (by decide) .get "/users").1
    ⟨"/users", .get, 1⟩ (by decide)

/-- Storage with two PATCH routes registered in unsorted order. -/
def c2Storage : RouteStorage :=
  { RouteStorage.empty with
    routes_patch := [⟨"/b", .patch, 1⟩, ⟨"/a", .patch, 2⟩] }

/-- C2: evaluation of the compiled `prep` (server.rs lines 364-371) on a
table with PATCH routes registered out of order.  The claim says every one
of the six buckets is sorted by `prep`; the server.rs `prep` never sorts
`routes_patch`, so that bucket stays unsorted and binary search then misses
a registered PATCH route, while the routes.rs revision of `prep` sorts it
and lookup succeeds. -/
theorem c2_prep_server_skips_patch_bucket :
    (RouteStorage.prep_server c2Storage).routes_patch =
      [⟨"/b", .patch, 1⟩, ⟨"/a", .patch, 2⟩] ∧
    ¬ SortedBucket (RouteStorage.prep_server c2Storage).routes_patch ∧
    (⟨"/b", .patch, 1⟩ : Route) ∈ (RouteStorage.prep_server c2Storage).routes_patch ∧
    (RouteStorage.prep_server c2Storage).handler .patch "/b" = Option.none ∧
    (RouteStorage.prep_routes c2Storage).routes_patch =
      [⟨"/a", .patch, 2⟩, ⟨"/b", .patch, 1⟩] ∧
    (RouteStorage.prep_routes c2Storage).handler .patch "/b" =
      some ⟨"/b", .patch, 1⟩ := by
  decide

/-! ## JSON codec claims -/

/-- C3: evaluation of serialize-then-parse on the single-entry map
`{"k" ↦ "\"}` (the value is one backslash).  Serialization emits the
backslash unescaped; the parser then treats `\"` as an escaped quote,
unescaping it to `"`.  Typed retrieval of `"k"` therefore returns `"`,
not the original value `\` — the codec does not round-trip every
supported string. -/
theorem c3_string_roundtrip_fails :
    hashMapStringToJson [("k".toList, "\\".toList)] =
      "\x7b\"k\":\"\\\"\x7d".toList ∧
    jsonObjectFromString (hashMapStringToJson [("k".toList, "\\".toList)]) =
      some [("k".toList, ⟨.str, "\"".toList⟩)] ∧
    (jsonObjectFromString (hashMapStringToJson [("k".toList, "\\".toList)])).map
      (fun es => objString es "k".toList) = some (some "\"".toList) ∧
    "\"".toList ≠ "\\".toList := by
  decide

/-- C4: evaluation of `RouteError::to_response` on an error whose
`override_output` flag is set.  The claim says the body is then the message
text verbatim with no forced content type; the source never reads the flag,
so the body is the JSON envelope (and the Content-Type header is forced)
exactly as in the unset case, while the status is the configured one. -/
theorem c4_override_flag_ignored (now : String) :
    (RouteError.to_response now ⟨"X", .notFound, true⟩).status = .notFound ∧
    (RouteError.to_response now ⟨"X", .notFound, true⟩).data =
      "\x7b\n\t\"code\":\"404\",\n\t\"message\":\"X\"\n\x7d" ∧
    (RouteError.to_response now ⟨"X", .notFound, true⟩).data ≠ "X" ∧
    (RouteError.to_response now ⟨"X", .notFound, true⟩) =
      RouteError.to_response now ⟨"X", .notFound, false⟩ := by
  refine ⟨rfl, rfl, ?_, rfl⟩
  rw [show (RouteError.to_response now ⟨"X", .notFound, true⟩).data =
    "\x7b\n\t\"code\":\"404\",\n\t\"message\":\"X\"\n\x7d" from rfl]
  decide

/-! ## Path normalization claims -/

theorem getLast?_cons_of_ne_nil (a : Char) {l : List Char} (h : l ≠ []) :
    (a :: l).getLast? = l.getLast? := by
  cases l with
  | nil => exact absurd rfl h
  | cons b t => simp [List.getLast?_cons_cons]

/-- When a path already starts with `'/'` and does not end with `'/'`, the
`Route::new` normalization leaves it unchanged. -/
theorem normalizePath_fixed {r : List Char} (hh : r.head? = some '/')
    (hl : r.getLast? ≠ some '/') : normalizePath r = r := by
  simp [normalizePath, hh, hl]

/-- Shape of a normalized path, for inputs other than `""`, `"/"` and paths
ending in a double slash: the result starts with `'/'` and does not end
with `'/'`. -/
theorem normalizePath_shape (l : List Char) (h0 : l ≠ []) (h1 : l ≠ ['/'])
    (h2 : l.getLast? = some '/' → l.dropLast.getLast? ≠ some '/') :
    (normalizePath l).head? = some '/' ∧ (normalizePath l).getLast? ≠ some '/' := by
  by_cases hlast : l.getLast? = some '/'
  · have hm : l.dropLast.getLast? ≠ some '/' := h2 hlast
    have hdec : l.dropLast ++ [l.getLast h0] = l := List.dropLast_append_getLast h0
    have hgl : l.getLast h0 = '/' := by
      have := List.getLast?_eq_getLast l h0
      rw [hlast] at this
      exact (Option.some.inj this).symm
    rw [hgl] at hdec
    have hm0 : l.dropLast ≠ [] := by
      intro hc
      rw [hc] at hdec
      exact h1 hdec.symm
    by_cases hh : l.head? = some '/'
    · have hres : normalizePath l = l.dropLast := by
        simp only [normalizePath, hh, if_true, hlast]
      rw [hres]
      constructor
      · rw [← hdec] at hh
        rwa [List.head?_append_of_ne_nil _ hm0] at hh
      · exact hm
    · have hcons : '/' :: l = ('/' :: l.dropLast) ++ ['/'] := by
        rw [List.cons_append, hdec]
      have hgl2 : ('/' :: l).getLast? = some '/' := by
        rw [hcons, List.getLast?_concat]
      have hres : normalizePath l = '/' :: l.dropLast := by
        simp only [normalizePath, hh, if_false, hgl2, if_true]
        rw [hcons, List.dropLast_concat]
      rw [hres]
      constructor
      · rfl
      · rw [getLast?_cons_of_ne_nil _ hm0]
        exact hm
  · by_cases hh : l.head? = some '/'
    · rw [normalizePath_fixed hh hlast]
      exact ⟨hh, hlast⟩
    · have hres : normalizePath l = '/' :: l := by
        have hgl2 : ('/' :: l).getLast? ≠ some '/' := by
          rw [getLast?_cons_of_ne_nil _ h0]
          exact hlast
        simp [normalizePath, hh, hgl2]
      rw [hres]
      constructor
      · rfl
      · rw [getLast?_cons_of_ne_nil _ h0]
        exact hlast

/-- C5 counterexample: normalizing `"//"` once yields `"/"`, normalizing it
twice yields `""` — normalization is not idempotent on every path. -/
theorem c5_counterexample :
    normalizePath (normalizePath "//".toList) ≠ normalizePath "//".toList := by
  decide

/-- C5 (amended): `Route::new` path normalization is idempotent for every
path that does not end in a double slash, and `"/users/"` and `"/users"`
normalize to the same string. -/
theorem c5_normalize_idempotent_amended (l : List Char)
    (h2 : l.getLast? = some '/' → l.dropLast.getLast? ≠ some '/') :
    normalizePath (normalizePath l) = normalizePath l ∧
    normalizePath "/users/".toList = normalizePath "/users".toList := by
  refine ⟨?_, by decide⟩
  by_cases h0 : l = []
  · rw [h0]
    decide
  by_cases h1 : l = ['/']
  · rw [h1]
    decide
  have hs := normalizePath_shape l h0 h1 h2
  exact normalizePath_fixed hs.1 hs.2

/-- Witness for C5: the amended idempotence applied to `"/users/"`. -/
theorem c5_normalize_idempotent_witness :
    normalizePath (normalizePath "/users/".toList) = normalizePath "/users/".toList :=
  (c5_normalize_idempotent_amended "/users/".toList (by decide)).1

/-- C6 counterexample: normalizing `"/"` yields `""`, which does not start
with `'/'`; and normalizing `"a//"` yields `"/a/"`, which ends with `'/'`
without being exactly `"/"`. -/
theorem c6_counterexample :
    (normalizePath "/".toList = [] ∧ ([] : List Char).head? ≠ some '/') ∧
    (normalizePath "a//".toList = "/a/".toList ∧
      (normalizePath "a//".toList).getLast? = some '/' ∧
      normalizePath "a//".toList ≠ "/".toList) := by
  decide

/-- C6 (amended): for every input path other than `""` and `"/"` that does
not end in a double slash, the registration-time normalized path starts
with `'/'` and does not end with `'/'`; and on every path that already
starts with `'/'` (in particular every HTTP request target path), the
request-framing normalization agrees with the registration-time one, so
exact string comparison suffices for lookup. -/
theorem c6_normalized_shape_amended (l : List Char) (h0 : l ≠ []) (h1 : l ≠ ['/'])
    (h2 : l.getLast? = some '/' → l.dropLast.getLast? ≠ some '/') :
    (normalizePath l).head? = some '/' ∧ (normalizePath l).getLast? ≠ some '/' ∧
    (∀ m : List Char, m.head? = some '/' → frameNormalizePath m = normalizePath m) := by
  have hs := normalizePath_shape l h0 h1 h2
  refine ⟨hs.1, hs.2, ?_⟩
  intro m hm
  simp [normalizePath, frameNormalizePath, hm]

/-- Witness for C6: the amended shape claim applied to `"users/"`. -/
theorem c6_normalized_shape_witness :
    (normalizePath "users/".toList).head? = some '/' ∧
    (normalizePath "users/".toList).getLast? ≠ some '/' ∧
    (∀ m : List Char, m.head? = some '/' →
      frameNormalizePath m = normalizePath m) :=
  c6_normalized_shape_amended "users/".toList (by decide) (by decide) (by decide)

/-- C7: evaluation of `impl ToJson for String` on `a"b` and on a string
holding a tab and a newline.  The claim says backslash, double-quote,
newline and tab are escaped; the source wraps the payload in quotes
unchanged — the emitted text contains the raw quote, tab and newline and
no backslash at all, so it is not a well-formed JSON string literal. -/
theorem c7_serialize_does_not_escape :
    stringToJson "a\"b".toList = "\"a\"b\"".toList ∧
    '\\' ∉ stringToJson "a\"b".toList ∧
    stringToJson "a\tb\nc".toList = "\"a\tb\nc\"".toList ∧
    '\\' ∉ stringToJson "a\tb\nc".toList := by
  decide

/-! ## Body classification claims -/

/-- C8: body classification.  For a request body with Content-Type
`application/json` the decoded text is dispatched on its first character:
`'{'` yields the JSON-object body and `'['` yields the JSON-array body
(each holding the parse of the text); and the form-encoded body `a=1&b=2`
decodes to the mapping `a ↦ "1", b ↦ "2"`. -/
theorem c8_body_classification (data : List Nat) (s : List Char)
    (h : utf8Decode? data = some s) :
    (s.head? = some '\x7b' →
      typeFromMime "application/json" data =
        (jsonObjectFromString s).map BodyContents.jsonObject) ∧
    (s.head? = some '[' →
      typeFromMime "application/json" data =
        (jsonArrayFromString s).map BodyContents.jsonArray) ∧
    typeFromMime "application/x-www-form-urlencoded" (utf8Encode "a=1&b=2".toList) =
      some (.urlEncoded [("a".toList, "1".toList), ("b".toList, "2".toList)]) := by
  refine ⟨?_, ?_, by decide⟩
  · intro hh
    unfold typeFromMime
    rw [if_neg (by decide), if_pos (Or.inl rfl), h]
    show (if s.head? = some '[' then
        (jsonArrayFromString s).map BodyContents.jsonArray
      else (jsonObjectFromString s).map BodyContents.jsonObject) = _
    rw [if_neg (by rw [hh]; decide)]
  · intro hh
    unfold typeFromMime
    rw [if_neg (by decide), if_pos (Or.inl rfl), h]
    show (if s.head? = some '[' then
        (jsonArrayFromString s).map BodyContents.jsonArray
      else (jsonObjectFromString s).map BodyContents.jsonObject) = _
    rw [if_pos hh]

/-- Witness for C8: classification of the concrete body `{"a":1}` sent as
`application/json`. -/
theorem c8_body_classification_witness :
    typeFromMime "application/json" (utf8Encode "\x7b\"a\":1\x7d".toList) =
      (jsonObjectFromString "\x7b\"a\":1\x7d".toList).map BodyContents.jsonObject :=
  (c8_body_classification (utf8Encode "\x7b\"a\":1\x7d".toList)
    "\x7b\"a\":1\x7d".toList (by decide)).1 (by decide)

/-- C10: for a byte vector that is not valid UTF-8, classification with
Content-Type `application/json`, `application/ld+json`, `text/plain` or
`application/x-www-form-urlencoded` panics (`String::from_utf8(..).unwrap()`
has no value), while every other content type yields a `Binary` body
holding the bytes unchanged. -/
theorem c10_invalid_utf8_binary_passthrough (data : List Nat)
    (h : utf8Decode? data = Option.none) (mime : String) :
    ((mime = "application/json" ∨ mime = "application/ld+json" ∨
        mime = "text/plain" ∨ mime = "application/x-www-form-urlencoded") →
      typeFromMime mime data = Option.none) ∧
    ((mime ≠ "application/json" ∧ mime ≠ "application/ld+json" ∧
        mime ≠ "text/plain" ∧ mime ≠ "application/x-www-form-urlencoded") →
      typeFromMime mime data = some (.binary data)) := by
  constructor
  · intro hm
    unfold typeFromMime
    rcases hm with hm | hm | hm | hm <;> rw [hm]
    · rw [if_neg (by decide), if_pos (Or.inl rfl), h]
    · rw [if_neg (by decide), if_pos (Or.inr rfl), h]
    · rw [if_neg (by decide), if_neg (by decide), if_pos rfl, h]
      rfl
    · rw [if_neg (by decide), if_neg (by decide), if_neg (by decide), if_pos rfl, h]
      rfl
  · intro hm
    unfold typeFromMime
    by_cases ho : mime = "application/octet-stream"
    · rw [if_pos ho]
    · rw [if_neg ho, if_neg (by rcases hm with ⟨h1, h2, _, _⟩; exact fun hc => hc.elim h1 h2),
        if_neg hm.2.2.1, if_neg hm.2.2.2]

/-- Witness for C10: the invalid byte `0xFF` panics under
`application/json` and passes through unchanged under `image/png`. -/
theorem c10_invalid_utf8_witness :
    typeFromMime "application/json" [255] = Option.none ∧
    typeFromMime "image/png" [255] = some (.binary [255]) :=
  ⟨(c10_invalid_utf8_binary_passthrough [255] (by decide) "application/json").1
      (Or.inl rfl),
    (c10_invalid_utf8_binary_passthrough [255] (by decide) "image/png").2
      (by refine ⟨?_, ?_, ?_, ?_⟩ <;> decide)⟩

/-! ## Write loop claims -/

/-- C9 (amended): for the success and error paths, the response bytes are
written by a retry loop in which the k-th `write` call is handed exactly
the unsent remainder (the buffer minus the bytes acknowledged by the
earlier calls — nothing skipped, nothing reordered); when the loop breaks
with completion the acknowledged bytes are exactly the whole buffer; and
the loop only ends by completion or by an I/O error (with an oracle that
never ends the loop, every outcome is consumed by a further attempt).
The OPTIONS-preflight path is excluded: it performs a single unchecked
write (see the counterexample). -/
theorem c9_write_loop_amended (buf : List Nat) (os : List (Option Nat)) :
    (∀ k a, (runWriteAttempts buf os).get? k = some a →
      a = buf.drop (ackSum os k)) ∧
    (runWriteEnd buf os = .completed → runWriteAck buf os = buf) ∧
    (runWriteEnd buf os = .pending →
      (runWriteAttempts buf os).length = os.length) := by
  induction os generalizing buf with
  | nil =>
    refine ⟨?_, ?_, ?_⟩
    · intro k a hk
      simp [runWriteAttempts] at hk
    · intro hend
      cases hend
    · intro _
      rfl
  | cons o os ih =>
    cases o with
    | none =>
      refine ⟨?_, ?_, ?_⟩
      · intro k a hk
        cases k with
        | zero =>
          simp only [runWriteAttempts, List.get?] at hk
          injection hk with hk
          rw [← hk]
          rfl
        | succ k =>
          simp only [runWriteAttempts, List.get?] at hk
          cases hk
      · intro hend
        cases hend
      · intro hend
        cases hend
    | some n =>
      by_cases hn : n = buf.length
      · refine ⟨?_, ?_, ?_⟩
        · intro k a hk
          cases k with
          | zero =>
            simp only [runWriteAttempts, if_pos hn, List.get?] at hk
            injection hk with hk
            rw [← hk]
            rfl
          | succ k =>
            simp only [runWriteAttempts, if_pos hn, List.get?] at hk
            cases hk
        · intro _
          simp [runWriteAck, if_pos hn]
        · intro hend
          simp only [runWriteEnd, if_pos hn] at hend
          cases hend
      · refine ⟨?_, ?_, ?_⟩
        · intro k a hk
          cases k with
          | zero =>
            simp only [runWriteAttempts, if_neg hn, List.get?] at hk
            injection hk with hk
            rw [← hk]
            rfl
          | succ k =>
            simp only [runWriteAttempts, if_neg hn, List.get?] at hk
            have hrec := (ih (buf.drop n)).1 k a hk
            rw [hrec, List.drop_drop]
            rfl
        · intro hend
          simp only [runWriteEnd, if_neg hn] at hend
          have hrec := (ih (buf.drop n)).2.1 hend
          simp only [runWriteAck, if_neg hn]
          rw [hrec, List.take_append_drop]
        · intro hend
          simp only [runWriteEnd, if_neg hn] at hend
          have hrec := (ih (buf.drop n)).2.2 hend
          simp only [runWriteAttempts, if_neg hn, List.length_cons, hrec]

/-- Witness for C9: the retry loop applied to the buffer `[0, 1, 2]` with
a partial first write of one byte followed by a completing write. -/
theorem c9_write_loop_witness :
    runWriteAck [0, 1, 2] [some 1, some 2] = [0, 1, 2] :=
  (c9_write_loop_amended [0, 1, 2] [some 1, some 2]).2.1 (by decide)

/-- C9 counterexample: on the OPTIONS-preflight path a successful partial
write of one byte out of two ends the write sequence after a single
attempt, with the buffer not fully written and no I/O error — contradicting
the claim that every response buffer is written by a loop terminating only
on completion or I/O error. -/
theorem c9_counterexample :
    optionsWriteAttempts [0, 1] (some 1) = [[0, 1]] ∧
    optionsWriteAck [0, 1] (some 1) = [0] ∧
    optionsWriteAck [0, 1] (some 1) ≠ [0, 1] ∧
    (some 1 : Option Nat) ≠ Option.none := by
  decide

end Tusk
